import Mathlib

/-!
# Verification of the texlab language-server core

Shallow embedding of the request handling, build serialization, file-event
handling and component-database logic of the texlab server, together with
theorems settling the specification claims about them.
-/

namespace TexlabSpec

/-! ## Build status and the build pipeline (src/server.rs, build_internal) -/

/-- Build status codes returned by a compile run (features::building::BuildStatus). -/
inductive BuildStatus where
  | success
  | error
  | failure
  | cancelled
  deriving DecidableEq, Repr

/-- Model of a configured compiler: the only observable of compiler.run()
is the status it returns. -/
structure TexCompilerM where
  runResult : BuildStatus
  deriving DecidableEq, Repr

/-- Observable outcome of Server::build_internal: the status passed to the
callback and whether an InternalMessage::ForwardSearch was sent. -/
structure BuildOutcome where
  status : BuildStatus
  forwardSearchEnqueued : Bool
  deriving DecidableEq, Repr

/-- Embedding of Server::build_internal (src/server.rs lines 714-748).
If TexCompiler::configure returns None, the callback receives FAILURE and
nothing is enqueued.  Otherwise the worker runs the compiler and, when the
forward_search_after option is set, sends ForwardSearch for the URI; the send
is not conditioned on the status of the run. -/
def build_internal (compiler : Option TexCompilerM) (forwardSearchAfter : Bool) :
    BuildOutcome :=
  match compiler with
  | none => ⟨BuildStatus.failure, false⟩
  | some c => ⟨c.runResult, forwardSearchAfter⟩

/-! ## Forward search (src/server.rs, forward_search_internal) -/

/-- Status codes of a forward-search request (features::ForwardSearchStatus). -/
inductive ForwardSearchStatus where
  | success
  | error
  | failure
  | unconfigured
  deriving DecidableEq, Repr

/-- Observable outcome of Server::forward_search_internal: the status passed
to the callback and whether the external viewer command was invoked. -/
structure ForwardSearchOutcome where
  status : ForwardSearchStatus
  invoked : Bool
  deriving DecidableEq, Repr

/-- Rust Option::zip: Some exactly when both inputs are Some. -/
def optionZip : Option α → Option β → Option (α × β)
  | some a, some b => some (a, b)
  | _, _ => none

/-- Embedding of Server::forward_search_internal (src/server.rs lines 765-803).
Unknown document: FAILURE without invoking anything.  Otherwise the pair of
configured executable and argument list is inspected via Option.zip: if either
is absent the status is UNCONFIGURED and nothing is invoked; if both are
present the viewer is executed and a failing execution maps to FAILURE. -/
def forward_search_internal (documentKnown : Bool)
    (executable : Option String) (args : Option (List String))
    (executeResult : Option ForwardSearchStatus) : ForwardSearchOutcome :=
  if documentKnown then
    match optionZip executable args with
    | some _ =>
        match executeResult with
        | some st => ⟨st, true⟩
        | none => ⟨ForwardSearchStatus.failure, true⟩
    | none => ⟨ForwardSearchStatus.unconfigured, false⟩
  else ⟨ForwardSearchStatus.failure, false⟩

/-! ## Advertised capabilities (src/server.rs, Server::capabilities) -/

/-- The completion trigger characters advertised on initialize
(src/server.rs lines 160-171). -/
def completionTriggerCharacters : List String :=
  ["\x5c", "\x7b", "\x7d", "@", "/", " "]

/-- The execute-command commands advertised on initialize
(src/server.rs lines 180-186). -/
def executeCommandCommands : List String :=
  ["texlab.cleanAuxiliary", "texlab.cleanArtifacts"]

/-! ## Workspace model (documents keyed by normalized URI or path) -/

/-- Ownership of a document (db::document::Owner). -/
inductive Owner where
  | client
  | server
  deriving DecidableEq, Repr

/-- Observable state of a document: owner, text buffer and cursor offset. -/
structure DocM where
  owner : Owner
  text : String
  cursor : Nat
  deriving DecidableEq, Repr

/-- The workspace document map, keyed by path or normalized URI. -/
def WorkspaceM : Type := String → Option DocM

/-- Insert or replace the document stored under a key. -/
def wsStore (ws : WorkspaceM) (k : String) (d : DocM) : WorkspaceM :=
  fun q => if q = k then some d else ws q

/-- Delete the document stored under a key. -/
def wsErase (ws : WorkspaceM) (k : String) : WorkspaceM :=
  fun q => if q = k then none else ws q

/-- Document languages recognized from a path extension (db::document::Language). -/
inductive Language where
  | tex
  | bib
  | auxFile
  | buildLog
  deriving DecidableEq, Repr

/-- The kinds of filesystem watcher events (notify::EventKind). -/
inductive FileEventKind where
  | create
  | modify
  | remove
  | anyKind
  | access
  | otherKind
  deriving DecidableEq, Repr

/-- A filesystem watcher event: a kind plus the affected paths. -/
structure FileEvent where
  kind : FileEventKind
  paths : List String
  deriving Repr

/-- Modelled from the spec: db::workspace::Workspace::load (not under src/)
reads the file from disk and stores it with owner Server; documents created
this way start with cursor offset zero. -/
def loadFromDisk (disk : String → String) (p : String) : DocM :=
  ⟨Owner.server, disk p, 0⟩

/-- One path of a watcher Create or Modify event
(src/server.rs lines 808-819): the path is reloaded from disk only when it is
unknown to the workspace or its document is Server-owned, and only when its
extension maps to a recognized language. -/
def handleCreateOrModifyPath (fromPath : String → Option Language)
    (disk : String → String) (ws : WorkspaceM) (p : String) : WorkspaceM :=
  if (match ws p with
      | none => true
      | some d => d.owner == Owner.server) then
    match fromPath p with
    | some _ => wsStore ws p (loadFromDisk disk p)
    | none => ws
  else ws

/-- One path of a watcher Remove event (src/server.rs lines 820-837): the
document is removed from the workspace only when it exists and is
Server-owned. -/
def handleRemovePath (ws : WorkspaceM) (p : String) : WorkspaceM :=
  match ws p with
  | some d => if d.owner == Owner.server then wsErase ws p else ws
  | none => ws

/-- Embedding of Server::handle_file_event (src/server.rs lines 805-840). -/
def handle_file_event (fromPath : String → Option Language)
    (disk : String → String) (ws : WorkspaceM) (ev : FileEvent) : WorkspaceM :=
  match ev.kind with
  | FileEventKind.create => ev.paths.foldl (handleCreateOrModifyPath fromPath disk) ws
  | FileEventKind.modify => ev.paths.foldl (handleCreateOrModifyPath fromPath disk) ws
  | FileEventKind.remove => ev.paths.foldl handleRemovePath ws
  | _ => ws

/-- Embedding of Server::did_close (src/server.rs lines 442-454): if the
document is present, its owner is set to Server; nothing is removed and the
text and cursor are untouched. -/
def did_close (ws : WorkspaceM) (uri : String) : WorkspaceM :=
  match ws uri with
  | some d => wsStore ws uri ⟨Owner.server, d.text, d.cursor⟩
  | none => ws

/-- An LSP content change: an incremental range edit or a full replacement. -/
inductive ContentChange where
  | ranged (startLine startChar endLine endChar : Nat) (text : String)
  | full (text : String)

/-- Embedding of the per-change branch of Server::did_change
(src/server.rs lines 388-411): a ranged change goes through the line index and
Document::edit (external, abstracted as editRanged); a full change replaces the
text and resets the cursor to zero. -/
def applyChange (editRanged : DocM → Nat × Nat × Nat × Nat → String → DocM)
    (d : DocM) : ContentChange → DocM
  | ContentChange.ranged a b c e t => editRanged d (a, b, c, e) t
  | ContentChange.full t => ⟨d.owner, t, 0⟩

/-- Embedding of Server::did_change (src/server.rs lines 378-421).  The Bool
result records that the handler returned Ok.  When the URI is not in the
workspace the handler returns Ok immediately; otherwise all content changes
are applied in order and workspace discovery (external, abstracted) runs. -/
def did_change (editRanged : DocM → Nat × Nat × Nat × Nat → String → DocM)
    (discover : WorkspaceM → WorkspaceM) (ws : WorkspaceM) (uri : String)
    (changes : List ContentChange) : WorkspaceM × Bool :=
  match ws uri with
  | none => (ws, true)
  | some d =>
      (discover (wsStore ws uri (changes.foldl (applyChange editRanged) d)), true)

/-! ## Feature request responses (src/server.rs, handle_feature_request and
the per-request handlers) -/

/-- A JSON-RPC response: success with a result, or an error with code and
message (lsp_server::Response::new_ok / new_err). -/
inductive Response (α : Type _) where
  | ok (result : α)
  | err (code : Int) (message : String)
  deriving DecidableEq, Repr

/-- lsp_server::ErrorCode::InvalidRequest as i32. -/
def invalidRequestCode : Int := -32600

/-- Modelled from the spec: crate::Workspace::slice (not under src/) restricts
the workspace to the project of the given URI; for a URI that does not name a
loaded document the slice is empty, and for a loaded document it contains at
least that document. -/
def wsSlice (docs : List String) (uri : String) : List String :=
  if uri ∈ docs then [uri] else []

/-- Embedding of Server::handle_feature_request (src/server.rs lines 470-500):
if the workspace slice of the request URI has no document, the response is the
error InvalidRequest with message "unknown document"; otherwise the handler
result is returned as a success response. -/
def handle_feature_request (docs : List String) (uri : String) (result : α) :
    Response α :=
  if (wsSlice docs uri).isEmpty then
    Response.err invalidRequestCode "unknown document"
  else Response.ok result

/-- Embedding of Server::document_link (src/server.rs lines 502-507): always a
success response, with the query result or the empty default. -/
def document_link (query : Option (List α)) : Response (List α) :=
  Response.ok (query.getD [])

/-- Embedding of Server::completion (src/server.rs lines 528-534): always a
success response carrying the optional completion list. -/
def completion (query : Option α) : Response (Option α) :=
  Response.ok query

/-- Embedding of the response part of Server::hover (src/server.rs lines
585-606): always a success response carrying the optional hover. -/
def hover (query : Option α) : Response (Option α) :=
  Response.ok query

/-- Embedding of Server::folding_range (src/server.rs lines 569-576): always a
success response, with the query result or the empty default. -/
def folding_range (query : Option (List α)) : Response (List α) :=
  Response.ok (query.getD [])

/-- Embedding of Server::formatting (src/server.rs lines 648-656): always a
success response carrying the optional edit list. -/
def formatting (query : Option α) : Response (Option α) :=
  Response.ok query

/-- Embedding of Server::inlay_hints (src/server.rs lines 676-683): always a
success response, with the query result or the empty default. -/
def inlay_hints (query : Option (List α)) : Response (List α) :=
  Response.ok (query.getD [])

/-- Embedding of Server::document_symbols (src/server.rs lines 509-514),
which dispatches through handle_feature_request. -/
def document_symbols (docs : List String) (uri : String) (result : α) :
    Response α :=
  handle_feature_request docs uri result

/-- Embedding of Server::references (src/server.rs lines 578-583). -/
def references (docs : List String) (uri : String) (result : α) : Response α :=
  handle_feature_request docs uri result

/-- Embedding of Server::goto_definition (src/server.rs lines 608-619). -/
def goto_definition (docs : List String) (uri : String) (result : α) :
    Response α :=
  handle_feature_request docs uri result

/-- Embedding of Server::prepare_rename (src/server.rs lines 621-626). -/
def prepare_rename (docs : List String) (uri : String) (result : α) :
    Response α :=
  handle_feature_request docs uri result

/-- Embedding of Server::rename (src/server.rs lines 628-633). -/
def rename (docs : List String) (uri : String) (result : α) : Response α :=
  handle_feature_request docs uri result

/-- Embedding of Server::document_highlight (src/server.rs lines 635-646). -/
def document_highlight (docs : List String) (uri : String) (result : α) :
    Response α :=
  handle_feature_request docs uri result

/-! ## Component database (src/util/components.rs) -/

/-- A component of the embedded package database.  Only the fields the linked
component computation reads are modelled. -/
structure Component where
  file_names : List String
  references : List String
  deriving DecidableEq, Repr

/-- The embedded component database. -/
structure ComponentDatabase where
  components : List Component
  deriving DecidableEq, Repr

/-- Embedding of ComponentDatabase::find (src/util/components.rs lines 23-30):
the first component one of whose file names equals the given name. -/
def ComponentDatabase.find (db : ComponentDatabase) (name : String) :
    Option Component :=
  db.components.find? (fun c => c.file_names.contains name)

/-- Embedding of ComponentDatabase::kernel (src/util/components.rs lines
55-60): the first component with an empty file-name list; the source unwraps,
so None models the panic when no kernel component exists. -/
def ComponentDatabase.kernel (db : ComponentDatabase) : Option Component :=
  db.components.find? (fun c => c.file_names.isEmpty)

/-- The kinds of inclusion links of a TeX document (db::analysis::TexLinkKind). -/
inductive TexLinkKind where
  | sty
  | cls
  | tex
  | bib
  deriving DecidableEq, Repr

/-- The filter_map over links in linked_components (src/util/components.rs
lines 38-42): package links become name.sty, class links become name.cls, and
all other links are dropped. -/
def linkComponentName : TexLinkKind × String → Option String
  | (TexLinkKind.sty, p) => some (p ++ ".sty")
  | (TexLinkKind.cls, p) => some (p ++ ".cls")
  | _ => none

/-- Itertools unique_by: keep the first element for each key, dropping later
elements whose key was already seen. -/
def dedupByKey {α κ : Type _} [DecidableEq κ] (key : α → κ) :
    List α → List κ → List α
  | [], _ => []
  | c :: rest, seen =>
      if key c ∈ seen then dedupByKey key rest seen
      else c :: dedupByKey key rest (key c :: seen)

/-- Embedding of ComponentDatabase::linked_components (src/util/components.rs
lines 32-53).  The related documents and their analyzed links live in the
salsa database (not under src/); the pipeline input is therefore the list of
link kind and path pairs gathered from the related documents.  Found
components and the kernel are expanded with their resolved references, then
deduplicated by file-name list, keeping first occurrences.  None models the
panic of kernel() when no kernel component exists. -/
def ComponentDatabase.linked_components (db : ComponentDatabase)
    (links : List (TexLinkKind × String)) : Option (List Component) :=
  match db.kernel with
  | none => none
  | some ker =>
      some (dedupByKey Component.file_names
        ((((links.filterMap linkComponentName).filterMap db.find) ++ [ker]).flatMap
          (fun comp => comp.references.filterMap db.find ++ [comp])) [])

/-! ## Diagnostics publication (src/server.rs, publish_diagnostics and
create_debouncer) -/

/-- The part of a document that publish_diagnostics inspects: its URI and
whether its data is a build log. -/
structure DocW where
  uri : String
  isBuildLog : Bool
  deriving DecidableEq, Repr

/-- The payload of a textDocument/publishDiagnostics notification
(lsp_types::PublishDiagnosticsParams): URI, optional version (the server sends
None) and the complete diagnostics list. -/
structure PublishDiagnosticsParams (δ : Type _) where
  uri : String
  version : Option Nat
  diagnostics : List δ
  deriving DecidableEq, Repr

/-- Embedding of publish_diagnostics (src/server.rs lines 964-983): for every
document of the workspace snapshot whose data is not a build log, one
notification is sent carrying the complete diagnostics list computed by the
diagnostic manager (dm, external crate::diagnostics); build-log documents are
skipped.  An empty list is sent as such, clearing previous diagnostics. -/
def publish_diagnostics {δ : Type _} (dm : String → List δ) (ws : List DocW) :
    List (PublishDiagnosticsParams δ) :=
  ws.filterMap (fun d =>
    if d.isBuildLog then none else some ⟨d.uri, none, dm d.uri⟩)

/-- Modelled from the spec: the debouncer (crate::debouncer, not under src/)
holds the most recent item; when the delay elapses without a newer item
superseding it, the held item is delivered to the receiver thread of
create_debouncer (src/server.rs lines 948-962).  For items tagged with their
arrival times, an item fires exactly when no further item arrives within the
delay window; the final item always fires. -/
def debouncerFires {W : Type _} (delay : Nat) : List (Nat × W) → List W
  | [] => []
  | (t, w) :: rest =>
      match rest with
      | [] => [w]
      | (t2, w2) :: rest2 =>
          if t2 ≤ t + delay then debouncerFires delay ((t2, w2) :: rest2)
          else w :: debouncerFires delay ((t2, w2) :: rest2)

/-! ## Request pipeline with snapshot-based reads (src/server.rs,
run_async_query, fork and process_messages) -/

/-- A message handled by the main loop: a mutating notification that updates
the database, or a read request dispatched to the worker pool with its
request id and query. -/
inductive RpcMsg (S R : Type _) where
  | mutate (f : S → S)
  | read (id : Nat) (query : S → R)

/-- A work item handed to the thread pool by run_async_query: the request id,
the snapshot taken on the main thread before enqueueing, and the query.  The
worker only ever evaluates the query on the stored snapshot. -/
structure WorkItem (S R : Type _) where
  id : Nat
  snap : S
  query : S → R

/-- The state of the request pipeline: messages not yet processed by the main
thread, the current database, the queued work items, and the responses sent so
far. -/
structure PipelineState (S R : Type _) where
  pendingMsgs : List (RpcMsg S R)
  current : S
  queue : List (WorkItem S R)
  responses : List (Nat × R)

/-- One step of the pipeline.  The main thread processes messages in order:
mutations are applied synchronously to the database (Server::did_open etc.),
and reads take a snapshot of the current database before the work item is
enqueued (Server::run_async_query: the snapshot is created on the main thread,
then pool.execute receives the closure).  A worker may run any queued item at
any later time, in any order, computing the response from the snapshot stored
in the item. -/
inductive PipelineStep {S R : Type _} :
    PipelineState S R → PipelineState S R → Prop where
  | processMutate (f : S → S) (rest : List (RpcMsg S R)) (cur : S)
      (queue : List (WorkItem S R)) (resp : List (Nat × R)) :
      PipelineStep ⟨RpcMsg.mutate f :: rest, cur, queue, resp⟩
        ⟨rest, f cur, queue, resp⟩
  | processRead (id : Nat) (q : S → R) (rest : List (RpcMsg S R)) (cur : S)
      (queue : List (WorkItem S R)) (resp : List (Nat × R)) :
      PipelineStep ⟨RpcMsg.read id q :: rest, cur, queue, resp⟩
        ⟨rest, cur, queue ++ [⟨id, cur, q⟩], resp⟩
  | workerRun (msgs : List (RpcMsg S R)) (cur : S) (pre : List (WorkItem S R))
      (item : WorkItem S R) (post : List (WorkItem S R)) (resp : List (Nat × R)) :
      PipelineStep ⟨msgs, cur, pre ++ item :: post, resp⟩
        ⟨msgs, cur, pre ++ post, resp ++ [(item.id, item.query item.snap)]⟩

/-- The pipeline states reachable from the initial state with message list
msgs and initial database s0. -/
inductive PipelineReach {S R : Type _} (msgs : List (RpcMsg S R)) (s0 : S) :
    PipelineState S R → Prop where
  | init : PipelineReach msgs s0 ⟨msgs, s0, [], []⟩
  | step {a b : PipelineState S R} : PipelineReach msgs s0 a →
      PipelineStep a b → PipelineReach msgs s0 b

/-- The database obtained by applying, in order, the mutations of a message
list to an initial database. -/
def applyMutations {S R : Type _} (msgs : List (RpcMsg S R)) (s : S) : S :=
  msgs.foldl (fun acc m =>
    match m with
    | RpcMsg.mutate f => f acc
    | RpcMsg.read _ _ => acc) s

/-- The pipeline invariant: the main thread has processed a prefix of the
message list, the database is that prefix applied, every queued work item
stores the snapshot of the prefix processed at its dispatch, and every
response is its query evaluated on the snapshot of its dispatch prefix. -/
def PipelineInv {S R : Type _} (msgs : List (RpcMsg S R)) (s0 : S)
    (st : PipelineState S R) : Prop :=
  (∃ pre, msgs = pre ++ st.pendingMsgs ∧ st.current = applyMutations pre s0) ∧
  (∀ item ∈ st.queue, ∃ pre suf, msgs = pre ++ RpcMsg.read item.id item.query :: suf ∧
      item.snap = applyMutations pre s0) ∧
  (∀ r ∈ st.responses, ∃ pre suf q, msgs = pre ++ RpcMsg.read r.1 q :: suf ∧
      r.2 = q (applyMutations pre s0))

/-! ## Build serialization (src/server.rs, the worker closure of
build_internal and its process-wide static LOCK mutex) -/

/-- The observable actions of one build job, transcribed from the closure of
build_internal (src/server.rs lines 735-745): acquire the static LOCK, start
and finish compiler.run(), optionally send the ForwardSearch message, drop the
guard, invoke the status callback. -/
inductive BuildInstr where
  | lock
  | runStart
  | runEnd
  | send
  | unlock
  | callback
  deriving DecidableEq, Repr

/-- The instruction list of one build job, by configuration: a configured
build takes the lock, runs the compiler, sends ForwardSearch when
forward_search_after is set, releases the guard and reports; a build whose
compiler could not be configured only reports FAILURE (src/server.rs lines
721-727) and never touches the lock. -/
def buildProgram : Bool → Bool → List BuildInstr
  | true, true => [BuildInstr.lock, BuildInstr.runStart, BuildInstr.runEnd,
      BuildInstr.send, BuildInstr.unlock, BuildInstr.callback]
  | true, false => [BuildInstr.lock, BuildInstr.runStart, BuildInstr.runEnd,
      BuildInstr.unlock, BuildInstr.callback]
  | false, _ => [BuildInstr.callback]

/-- The instruction of a build job at a program counter. -/
def instrAt (cfg fsa : Bool) (pc : Nat) : Option BuildInstr :=
  (buildProgram cfg fsa).get? pc

/-- Whether a job at the given program counter holds the mutex: it has
executed lock and not yet unlock. -/
def inCritical (cfg fsa : Bool) (pc : Nat) : Bool :=
  cfg && decide (1 ≤ pc) && decide (pc ≤ if fsa then 4 else 3)

/-- Whether the compiler invocation of a job is in progress: runStart has been
executed and runEnd has not. -/
def runningCompiler (cfg fsa : Bool) (pc : Nat) : Bool :=
  cfg && decide (pc = 2)

/-- One thread step: fetch the instruction at the program counter; lock blocks
while the mutex is held and acquires it otherwise; unlock releases it; every
other instruction merely advances. -/
def threadStep (cfg fsa : Bool) (pc : Nat) (ow : Option Bool) (me : Bool) :
    Option (Nat × Option Bool) :=
  match instrAt cfg fsa pc with
  | none => none
  | some BuildInstr.lock =>
      match ow with
      | none => some (pc + 1, some me)
      | some _ => none
  | some BuildInstr.unlock => some (pc + 1, none)
  | some _ => some (pc + 1, ow)

/-- Joint state of two concurrently issued build jobs A and B and the
process-wide mutex LOCK of build_internal. -/
structure BuildSystem where
  pcA : Nat
  pcB : Nat
  owner : Option Bool
  deriving DecidableEq, Repr

/-- Interleaving semantics: at each step one of the two jobs (false for A,
true for B) executes its next instruction when it is enabled. -/
def sysStep (cfgA fsaA cfgB fsaB : Bool) (s : BuildSystem) (t : Bool) :
    Option BuildSystem :=
  match t with
  | false => (threadStep cfgA fsaA s.pcA s.owner false).map
      (fun r => ⟨r.1, s.pcB, r.2⟩)
  | true => (threadStep cfgB fsaB s.pcB s.owner true).map
      (fun r => ⟨s.pcA, r.1, r.2⟩)

/-- States reachable from both jobs at program start with the mutex free. -/
inductive SysReach (cfgA fsaA cfgB fsaB : Bool) : BuildSystem → Prop where
  | init : SysReach cfgA fsaA cfgB fsaB ⟨0, 0, none⟩
  | step {s s2 : BuildSystem} {t : Bool} : SysReach cfgA fsaA cfgB fsaB s →
      sysStep cfgA fsaA cfgB fsaB s t = some s2 → SysReach cfgA fsaA cfgB fsaB s2

/-- The mutex invariant of the two build jobs: the mutex is held by a job
exactly while its program counter is inside the critical section, and the
program counters never pass the end of the programs. -/
def SysInv (cfgA fsaA cfgB fsaB : Bool) (s : BuildSystem) : Prop :=
  (s.owner = some false ↔ inCritical cfgA fsaA s.pcA = true) ∧
  (s.owner = some true ↔ inCritical cfgB fsaB s.pcB = true) ∧
  s.pcA ≤ (buildProgram cfgA fsaA).length ∧
  s.pcB ≤ (buildProgram cfgB fsaB).length

end TexlabSpec

namespace TexlabSpec

/-- Folding a step function that preserves a predicate preserves it over a list. -/
theorem foldl_preserve {α σ : Type _} (f : σ → α → σ) (P : σ → Prop)
    (h : ∀ s a, P s → P (f s a)) : ∀ (l : List α) (s : σ), P s → P (List.foldl f s l) := by
  intro l
  induction l with
  | nil => intro s hs; exact hs
  | cons a l ih => intro s hs; exact ih (f s a) (h s a hs)

/-- A Create or Modify path step never touches a Client-owned document. -/
theorem handleCreateOrModifyPath_client (fromPath : String → Option Language)
    (disk : String → String) (ws : WorkspaceM) (p q : String) (d : DocM)
    (hq : ws q = some d) (hc : d.owner = Owner.client) :
    handleCreateOrModifyPath fromPath disk ws p q = some d := by
  by_cases hpq : q = p
  · subst hpq
    simp [handleCreateOrModifyPath, hq, hc]
  · unfold handleCreateOrModifyPath
    split
    · rcases hfp : fromPath p with _ | lang <;> simp [hfp, wsStore, hpq, hq]
    · exact hq

/-- A Remove path step never touches a Client-owned document. -/
theorem handleRemovePath_client (ws : WorkspaceM) (p q : String) (d : DocM)
    (hq : ws q = some d) (hc : d.owner = Owner.client) :
    handleRemovePath ws p q = some d := by
  by_cases hpq : q = p
  · subst hpq
    simp [handleRemovePath, hq, hc]
  · unfold handleRemovePath
    rcases hw : ws p with _ | d2
    · exact hq
    · dsimp only
      split <;> simp [wsErase, hpq, hq]

/-! ## Lemmas and theorem for C4 -/

/-- Applying mutations distributes over message list concatenation. -/
theorem applyMutations_append {S R : Type _} (l1 l2 : List (RpcMsg S R)) (s : S) :
    applyMutations (l1 ++ l2) s = applyMutations l2 (applyMutations l1 s) := by
  simp [applyMutations, List.foldl_append]

/-- Every reachable pipeline state satisfies the pipeline invariant. -/
theorem pipelineReach_inv {S R : Type _} (msgs : List (RpcMsg S R)) (s0 : S)
    (st : PipelineState S R) (h : PipelineReach msgs s0 st) :
    PipelineInv msgs s0 st := by
  induction h with
  | init =>
      refine ⟨⟨[], by simp, by simp [applyMutations]⟩, ?_, ?_⟩
      · intro item hitem
        exact absurd hitem (List.not_mem_nil item)
      · intro r hrr
        exact absurd hrr (List.not_mem_nil r)
  | step hreach hstep ih =>
      obtain ⟨⟨pre, hpend, hcur⟩, hq, hr⟩ := ih
      cases hstep with
      | processMutate f rest cur queue resp =>
          dsimp only at hpend hcur hq hr
          refine ⟨⟨pre ++ [RpcMsg.mutate f], ?_, ?_⟩, hq, hr⟩
          · rw [hpend]
            simp
          · rw [applyMutations_append]
            simp only [applyMutations, List.foldl_cons, List.foldl_nil]
            rw [hcur]
            rfl
      | processRead id q rest cur queue resp =>
          dsimp only at hpend hcur hq hr
          refine ⟨⟨pre ++ [RpcMsg.read id q], ?_, ?_⟩, ?_, hr⟩
          · rw [hpend]
            simp
          · rw [applyMutations_append]
            simp only [applyMutations, List.foldl_cons, List.foldl_nil]
            rw [hcur]
            rfl
          · intro item hitem
            rcases List.mem_append.mp hitem with hitem | hitem
            · exact hq item hitem
            · have hie := List.mem_singleton.mp hitem
              subst hie
              exact ⟨pre, rest, hpend, hcur⟩
      | workerRun msgs2 cur pre2 item post resp =>
          dsimp only at hpend hcur hq hr
          refine ⟨⟨pre, hpend, hcur⟩, ?_, ?_⟩
          · intro it hit
            refine hq it ?_
            rcases List.mem_append.mp hit with hit | hit
            · exact List.mem_append_left _ hit
            · exact List.mem_append_right _ (List.mem_cons_of_mem _ hit)
          · intro r hrr
            rcases List.mem_append.mp hrr with hrr | hrr
            · exact hr r hrr
            · have hre := List.mem_singleton.mp hrr
              subst hre
              obtain ⟨p2, suf, hmsgs, hsnap⟩ :=
                hq item (List.mem_append_right _ (List.mem_cons_self _ _))
              exact ⟨p2, suf, item.query, hmsgs, by rw [hsnap]⟩

/-- C4: in every execution of the pipeline, every response to a read request
is the query evaluated on the database reflecting exactly the mutations
processed by the main thread before the read was dispatched: the snapshot is
created on the main thread before the work item is enqueued, so the worker
observes every mutation processed before dispatch and none processed after,
regardless of when the worker runs. -/
theorem c4_reads_observe_prior_mutations {S R : Type _}
    (msgs : List (RpcMsg S R)) (s0 : S) (st : PipelineState S R)
    (h : PipelineReach msgs s0 st) (r : Nat × R) (hr : r ∈ st.responses) :
    ∃ pre suf q, msgs = pre ++ RpcMsg.read r.1 q :: suf ∧
      r.2 = q (applyMutations pre s0) := by
  obtain ⟨_, _, hresp⟩ := pipelineReach_inv msgs s0 st h
  exact hresp r hr

/-- C4 witness: a mutation incrementing the database, followed by a read whose
worker runs afterwards; the response observes the mutation. -/
theorem c4_reads_observe_prior_mutations_witness :
    ∃ pre suf q,
      [RpcMsg.mutate (fun s : Nat => s + 1), RpcMsg.read 7 (fun s : Nat => s)]
        = pre ++ RpcMsg.read 7 q :: suf ∧
      (1 : Nat) = q (applyMutations pre 0) := by
  have h1 : PipelineStep
      (⟨[RpcMsg.mutate (fun s : Nat => s + 1), RpcMsg.read 7 (fun s : Nat => s)],
        0, [], []⟩ : PipelineState Nat Nat)
      ⟨[RpcMsg.read 7 (fun s : Nat => s)], 1, [], []⟩ :=
    PipelineStep.processMutate _ _ _ _ _
  have h2 : PipelineStep
      (⟨[RpcMsg.read 7 (fun s : Nat => s)], 1, [], []⟩ : PipelineState Nat Nat)
      ⟨[], 1, [⟨7, 1, fun s : Nat => s⟩], []⟩ :=
    PipelineStep.processRead _ _ _ _ _ _
  have h3 : PipelineStep
      (⟨[], 1, [⟨7, 1, fun s : Nat => s⟩], []⟩ : PipelineState Nat Nat)
      ⟨[], 1, [], [(7, 1)]⟩ :=
    PipelineStep.workerRun _ _ [] ⟨7, 1, fun s : Nat => s⟩ [] _
  exact c4_reads_observe_prior_mutations _ 0 ⟨[], 1, [], [(7, 1)]⟩
    (PipelineReach.step (PipelineReach.step
      (PipelineReach.step PipelineReach.init h1) h2) h3)
    (7, 1) (by simp)

/-! ## Lemmas and theorem for C3 -/

/-- Every build program has at most six instructions. -/
theorem buildProgram_length_le (cfg fsa : Bool) :
    (buildProgram cfg fsa).length ≤ 6 := by
  cases cfg <;> cases fsa <;> decide

/-- A program counter with an instruction is below six. -/
theorem instrAt_pc_lt (cfg fsa : Bool) (pc : Nat) (i : BuildInstr)
    (h : instrAt cfg fsa pc = some i) : pc < 6 := by
  by_contra hb
  push_neg at hb
  rw [instrAt,
    List.get?_eq_none.mpr (le_trans (buildProgram_length_le cfg fsa) hb)] at h
  exact absurd h (by simp)

/-- A program counter with an instruction is inside the program. -/
theorem instrAt_lt_length (cfg fsa : Bool) (pc : Nat) (i : BuildInstr)
    (h : instrAt cfg fsa pc = some i) : pc < (buildProgram cfg fsa).length := by
  rw [instrAt] at h
  obtain ⟨hlt, _⟩ := List.get?_eq_some.mp h
  exact hlt

/-- The lock instruction sits at the program start, outside the critical
section, and entering it moves the job inside. -/
theorem lock_position (cfg fsa : Bool) (pc : Nat)
    (h : instrAt cfg fsa pc = some BuildInstr.lock) :
    pc = 0 ∧ cfg = true ∧ inCritical cfg fsa pc = false ∧
      inCritical cfg fsa (pc + 1) = true := by
  have hb := instrAt_pc_lt cfg fsa pc _ h
  cases cfg <;> cases fsa <;> interval_cases pc <;> revert h <;> decide

/-- The unlock instruction sits inside the critical section and executing it
leaves the section. -/
theorem unlock_position (cfg fsa : Bool) (pc : Nat)
    (h : instrAt cfg fsa pc = some BuildInstr.unlock) :
    inCritical cfg fsa pc = true ∧ inCritical cfg fsa (pc + 1) = false := by
  have hb := instrAt_pc_lt cfg fsa pc _ h
  cases cfg <;> cases fsa <;> interval_cases pc <;> revert h <;> decide

/-- Every instruction other than lock and unlock keeps the job on its side of
the critical section. -/
theorem mid_instr_critical (cfg fsa : Bool) (pc : Nat) (i : BuildInstr)
    (h : instrAt cfg fsa pc = some i) (h1 : i ≠ BuildInstr.lock)
    (h2 : i ≠ BuildInstr.unlock) :
    inCritical cfg fsa (pc + 1) = inCritical cfg fsa pc := by
  have hb := instrAt_pc_lt cfg fsa pc _ h
  cases cfg <;> cases fsa <;> cases i <;> interval_cases pc <;>
    revert h h1 h2 <;> decide

/-- The runStart instruction sits at counter one, inside the critical
section. -/
theorem runStart_position (cfg fsa : Bool) (pc : Nat)
    (h : instrAt cfg fsa pc = some BuildInstr.runStart) :
    cfg = true ∧ pc = 1 ∧ inCritical cfg fsa pc = true := by
  have hb := instrAt_pc_lt cfg fsa pc _ h
  cases cfg <;> cases fsa <;> interval_cases pc <;> revert h <;> decide

/-- A counter inside the critical section belongs to a configured job and
lies between one and four. -/
theorem critical_pc_facts (cfg fsa : Bool) (pc : Nat)
    (h : inCritical cfg fsa pc = true) : cfg = true ∧ 1 ≤ pc ∧ pc ≤ 4 := by
  unfold inCritical at h
  cases cfg
  · simp at h
  · cases fsa <;> simp at h <;> exact ⟨rfl, h.1, by omega⟩

/-- A job inside the critical section has a next instruction and that
instruction is not lock. -/
theorem critical_not_stuck (cfg fsa : Bool) (pc : Nat)
    (h : inCritical cfg fsa pc = true) :
    instrAt cfg fsa pc ≠ none ∧ instrAt cfg fsa pc ≠ some BuildInstr.lock := by
  obtain ⟨hcfg, h1, h4⟩ := critical_pc_facts cfg fsa pc h
  subst hcfg
  cases fsa <;> interval_cases pc <;> revert h <;> decide

/-- A finished job is outside the critical section. -/
theorem instrAt_none_not_critical (cfg fsa : Bool) (pc : Nat)
    (h : instrAt cfg fsa pc = none) : inCritical cfg fsa pc = false := by
  rcases hcc : inCritical cfg fsa pc with _ | _
  · rfl
  · exact absurd h (critical_not_stuck cfg fsa pc hcc).1

/-- A job whose compiler run is in progress is inside the critical section. -/
theorem running_critical (cfg fsa : Bool) (pc : Nat)
    (h : runningCompiler cfg fsa pc = true) : inCritical cfg fsa pc = true := by
  unfold runningCompiler at h
  simp only [Bool.and_eq_true, decide_eq_true_eq] at h
  obtain ⟨hcfg, hpc⟩ := h
  subst hcfg
  subst hpc
  cases fsa <;> decide

/-- A configured job outside the critical section is before its lock or past
its unlock; in particular its compiler run is over or not yet started. -/
theorem not_critical_pc (cfg fsa : Bool) (pc : Nat) (hcfg : cfg = true)
    (h : inCritical cfg fsa pc = false) : pc = 0 ∨ 2 < pc := by
  subst hcfg
  by_contra hcon
  push_neg at hcon
  obtain ⟨h0, h2⟩ := hcon
  have h1 : 1 ≤ pc := Nat.one_le_iff_ne_zero.mpr h0
  have hcrit : inCritical true fsa pc = true := by
    cases fsa <;> interval_cases pc <;> decide
  rw [hcrit] at h
  exact absurd h (by simp)

/-- Shape of a successful thread step: the counter advances by one and the
mutex changes exactly as the executed instruction dictates. -/
theorem threadStep_shape (cfg fsa : Bool) (pc : Nat) (ow : Option Bool)
    (me : Bool) (pc2 : Nat) (ow2 : Option Bool)
    (h : threadStep cfg fsa pc ow me = some (pc2, ow2)) :
    pc2 = pc + 1 ∧ ∃ i, instrAt cfg fsa pc = some i ∧
      ((i = BuildInstr.lock ∧ ow = none ∧ ow2 = some me) ∨
       (i = BuildInstr.unlock ∧ ow2 = none) ∨
       (i ≠ BuildInstr.lock ∧ i ≠ BuildInstr.unlock ∧ ow2 = ow)) := by
  unfold threadStep at h
  rcases hi : instrAt cfg fsa pc with _ | i
  · rw [hi] at h
    exact absurd h (by simp)
  · rw [hi] at h
    cases i with
    | lock =>
        cases ow with
        | none =>
            simp only [Option.some.injEq, Prod.mk.injEq] at h
            exact ⟨h.1.symm, BuildInstr.lock, rfl, Or.inl ⟨rfl, rfl, h.2.symm⟩⟩
        | some x => exact absurd h (by simp)
    | unlock =>
        simp only [Option.some.injEq, Prod.mk.injEq] at h
        exact ⟨h.1.symm, BuildInstr.unlock, rfl, Or.inr (Or.inl ⟨rfl, h.2.symm⟩)⟩
    | runStart =>
        simp only [Option.some.injEq, Prod.mk.injEq] at h
        exact ⟨h.1.symm, BuildInstr.runStart, rfl,
          Or.inr (Or.inr ⟨by simp, by simp, h.2.symm⟩)⟩
    | runEnd =>
        simp only [Option.some.injEq, Prod.mk.injEq] at h
        exact ⟨h.1.symm, BuildInstr.runEnd, rfl,
          Or.inr (Or.inr ⟨by simp, by simp, h.2.symm⟩)⟩
    | send =>
        simp only [Option.some.injEq, Prod.mk.injEq] at h
        exact ⟨h.1.symm, BuildInstr.send, rfl,
          Or.inr (Or.inr ⟨by simp, by simp, h.2.symm⟩)⟩
    | callback =>
        simp only [Option.some.injEq, Prod.mk.injEq] at h
        exact ⟨h.1.symm, BuildInstr.callback, rfl,
          Or.inr (Or.inr ⟨by simp, by simp, h.2.symm⟩)⟩

/-- A failed thread step means the job is finished or blocked on a held
lock. -/
theorem threadStep_none_cases (cfg fsa : Bool) (pc : Nat) (ow : Option Bool)
    (me : Bool) (h : threadStep cfg fsa pc ow me = none) :
    instrAt cfg fsa pc = none ∨
      (instrAt cfg fsa pc = some BuildInstr.lock ∧ ∃ x, ow = some x) := by
  unfold threadStep at h
  rcases hi : instrAt cfg fsa pc with _ | i
  · exact Or.inl rfl
  · rw [hi] at h
    cases i with
    | lock =>
        cases ow with
        | none => exact absurd h (by simp)
        | some x => exact Or.inr ⟨rfl, x, rfl⟩
    | unlock => exact absurd h (by simp)
    | runStart => exact absurd h (by simp)
    | runEnd => exact absurd h (by simp)
    | send => exact absurd h (by simp)
    | callback => exact absurd h (by simp)

/-- A system step preserves the mutex invariant. -/
theorem sysInv_step (cfgA fsaA cfgB fsaB : Bool) (s s2 : BuildSystem) (t : Bool)
    (hinv : SysInv cfgA fsaA cfgB fsaB s)
    (h : sysStep cfgA fsaA cfgB fsaB s t = some s2) :
    SysInv cfgA fsaA cfgB fsaB s2 := by
  obtain ⟨hA, hB, hlA, hlB⟩ := hinv
  cases t
  · simp only [sysStep] at h
    rcases hts : threadStep cfgA fsaA s.pcA s.owner false with _ | r
    · rw [hts] at h
      exact absurd h (by simp)
    · rw [hts] at h
      simp only [Option.map_some', Option.some.injEq] at h
      subst h
      obtain ⟨hpc2, i, hi, hcase⟩ :=
        threadStep_shape cfgA fsaA s.pcA s.owner false r.1 r.2 hts
      have hbound : r.1 ≤ (buildProgram cfgA fsaA).length := by
        rw [hpc2]
        exact instrAt_lt_length cfgA fsaA s.pcA i hi
      rcases hcase with ⟨hil, hown, how2⟩ | ⟨hil, how2⟩ | ⟨hl1, hl2, how2⟩
      · subst hil
        obtain ⟨_, _, _, hin1⟩ := lock_position cfgA fsaA s.pcA hi
        have hBf : inCritical cfgB fsaB s.pcB = false := by
          rcases hv : inCritical cfgB fsaB s.pcB with _ | _
          · rfl
          · rw [hown] at hB
            exact absurd (hB.mpr hv) (by simp)
        refine ⟨?_, ?_, hbound, hlB⟩
        · dsimp only
          rw [how2, hpc2, hin1]
          simp
        · dsimp only
          rw [how2, hBf]
          simp
      · subst hil
        obtain ⟨hin0, hin1⟩ := unlock_position cfgA fsaA s.pcA hi
        have howner : s.owner = some false := hA.mpr hin0
        have hBf : inCritical cfgB fsaB s.pcB = false := by
          rcases hv : inCritical cfgB fsaB s.pcB with _ | _
          · rfl
          · rw [howner] at hB
            exact absurd (hB.mpr hv) (by simp)
        refine ⟨?_, ?_, hbound, hlB⟩
        · dsimp only
          rw [how2, hpc2, hin1]
          simp
        · dsimp only
          rw [how2, hBf]
          simp
      · have hmid := mid_instr_critical cfgA fsaA s.pcA i hi hl1 hl2
        refine ⟨?_, ?_, hbound, hlB⟩
        · dsimp only
          rw [how2, hpc2, hmid]
          exact hA
        · dsimp only
          rw [how2]
          exact hB
  · simp only [sysStep] at h
    rcases hts : threadStep cfgB fsaB s.pcB s.owner true with _ | r
    · rw [hts] at h
      exact absurd h (by simp)
    · rw [hts] at h
      simp only [Option.map_some', Option.some.injEq] at h
      subst h
      obtain ⟨hpc2, i, hi, hcase⟩ :=
        threadStep_shape cfgB fsaB s.pcB s.owner true r.1 r.2 hts
      have hbound : r.1 ≤ (buildProgram cfgB fsaB).length := by
        rw [hpc2]
        exact instrAt_lt_length cfgB fsaB s.pcB i hi
      rcases hcase with ⟨hil, hown, how2⟩ | ⟨hil, how2⟩ | ⟨hl1, hl2, how2⟩
      · subst hil
        obtain ⟨_, _, _, hin1⟩ := lock_position cfgB fsaB s.pcB hi
        have hAf : inCritical cfgA fsaA s.pcA = false := by
          rcases hv : inCritical cfgA fsaA s.pcA with _ | _
          · rfl
          · rw [hown] at hA
            exact absurd (hA.mpr hv) (by simp)
        refine ⟨?_, ?_, hlA, hbound⟩
        · dsimp only
          rw [how2, hAf]
          simp
        · dsimp only
          rw [how2, hpc2, hin1]
          simp
      · subst hil
        obtain ⟨hin0, hin1⟩ := unlock_position cfgB fsaB s.pcB hi
        have howner : s.owner = some true := hB.mpr hin0
        have hAf : inCritical cfgA fsaA s.pcA = false := by
          rcases hv : inCritical cfgA fsaA s.pcA with _ | _
          · rfl
          · rw [howner] at hA
            exact absurd (hA.mpr hv) (by simp)
        refine ⟨?_, ?_, hlA, hbound⟩
        · dsimp only
          rw [how2, hAf]
          simp
        · dsimp only
          rw [how2, hpc2, hin1]
          simp
      · have hmid := mid_instr_critical cfgB fsaB s.pcB i hi hl1 hl2
        refine ⟨?_, ?_, hlA, hbound⟩
        · dsimp only
          rw [how2]
          exact hA
        · dsimp only
          rw [how2, hpc2, hmid]
          exact hB

/-- Every reachable state of the two build jobs satisfies the mutex
invariant. -/
theorem sysReach_inv (cfgA fsaA cfgB fsaB : Bool) (s : BuildSystem)
    (h : SysReach cfgA fsaA cfgB fsaB s) : SysInv cfgA fsaA cfgB fsaB s := by
  induction h with
  | init =>
      refine ⟨?_, ?_, Nat.zero_le _, Nat.zero_le _⟩ <;> simp [inCritical]
  | step hr hstep ih => exact sysInv_step cfgA fsaA cfgB fsaB _ _ _ ih hstep

/-- C3: builds are serialized by the process-wide mutex.  In every reachable
state of two concurrently issued build jobs, (a) the two compiler invocations
never overlap; (b) when one job is about to start its compiler run, the other
configured job is either before its lock or past its unlock, so its run has
already finished or has not begun; (c) when neither job can step further, both
programs have run to completion (both status callbacks were invoked,
whichever statuses the runs returned) and the mutex is released. -/
theorem c3_build_serialization (cfgA fsaA cfgB fsaB : Bool) (s : BuildSystem)
    (h : SysReach cfgA fsaA cfgB fsaB s) :
    ¬(runningCompiler cfgA fsaA s.pcA = true ∧
        runningCompiler cfgB fsaB s.pcB = true) ∧
    (instrAt cfgA fsaA s.pcA = some BuildInstr.runStart →
      runningCompiler cfgB fsaB s.pcB = false ∧
        (cfgB = true → s.pcB = 0 ∨ 2 < s.pcB)) ∧
    (instrAt cfgB fsaB s.pcB = some BuildInstr.runStart →
      runningCompiler cfgA fsaA s.pcA = false ∧
        (cfgA = true → s.pcA = 0 ∨ 2 < s.pcA)) ∧
    ((sysStep cfgA fsaA cfgB fsaB s false = none ∧
        sysStep cfgA fsaA cfgB fsaB s true = none) →
      s.pcA = (buildProgram cfgA fsaA).length ∧
      s.pcB = (buildProgram cfgB fsaB).length ∧ s.owner = none) := by
  obtain ⟨hA, hB, hlA, hlB⟩ := sysReach_inv cfgA fsaA cfgB fsaB s h
  refine ⟨?_, ?_, ?_, ?_⟩
  · rintro ⟨hra, hrb⟩
    have h1 := hA.mpr (running_critical cfgA fsaA s.pcA hra)
    have h2 := hB.mpr (running_critical cfgB fsaB s.pcB hrb)
    rw [h1] at h2
    exact absurd h2 (by simp)
  · intro hrs
    obtain ⟨_, _, hcrit⟩ := runStart_position cfgA fsaA s.pcA hrs
    have howner := hA.mpr hcrit
    have hBf : inCritical cfgB fsaB s.pcB = false := by
      rcases hv : inCritical cfgB fsaB s.pcB with _ | _
      · rfl
      · rw [howner] at hB
        exact absurd (hB.mpr hv) (by simp)
    constructor
    · rcases hv : runningCompiler cfgB fsaB s.pcB with _ | _
      · rfl
      · rw [running_critical cfgB fsaB s.pcB hv] at hBf
        exact absurd hBf (by simp)
    · intro hcfg
      exact not_critical_pc cfgB fsaB s.pcB hcfg hBf
  · intro hrs
    obtain ⟨_, _, hcrit⟩ := runStart_position cfgB fsaB s.pcB hrs
    have howner := hB.mpr hcrit
    have hAf : inCritical cfgA fsaA s.pcA = false := by
      rcases hv : inCritical cfgA fsaA s.pcA with _ | _
      · rfl
      · rw [howner] at hA
        exact absurd (hA.mpr hv) (by simp)
    constructor
    · rcases hv : runningCompiler cfgA fsaA s.pcA with _ | _
      · rfl
      · rw [running_critical cfgA fsaA s.pcA hv] at hAf
        exact absurd hAf (by simp)
    · intro hcfg
      exact not_critical_pc cfgA fsaA s.pcA hcfg hAf
  · rintro ⟨hsa, hsb⟩
    have htsa : threadStep cfgA fsaA s.pcA s.owner false = none := by
      simp only [sysStep] at hsa
      exact Option.map_eq_none'.mp hsa
    have htsb : threadStep cfgB fsaB s.pcB s.owner true = none := by
      simp only [sysStep] at hsb
      exact Option.map_eq_none'.mp hsb
    have hAnone : instrAt cfgA fsaA s.pcA = none := by
      rcases threadStep_none_cases cfgA fsaA s.pcA s.owner false htsa with
        hn | ⟨hlock, x, how⟩
      · exact hn
      · exfalso
        cases x
        · obtain ⟨_, _, hout, _⟩ := lock_position cfgA fsaA s.pcA hlock
          rw [hA.mp how] at hout
          exact absurd hout (by simp)
        · have hcritB := hB.mp how
          obtain ⟨hne, hnl⟩ := critical_not_stuck cfgB fsaB s.pcB hcritB
          rcases threadStep_none_cases cfgB fsaB s.pcB s.owner true htsb with
            hn2 | ⟨hlock2, _, _⟩
          · exact hne hn2
          · exact hnl hlock2
    have hBnone : instrAt cfgB fsaB s.pcB = none := by
      rcases threadStep_none_cases cfgB fsaB s.pcB s.owner true htsb with
        hn | ⟨hlock, x, how⟩
      · exact hn
      · exfalso
        cases x
        · have hcritA := hA.mp how
          exact (critical_not_stuck cfgA fsaA s.pcA hcritA).1 hAnone
        · obtain ⟨_, _, hout, _⟩ := lock_position cfgB fsaB s.pcB hlock
          rw [hB.mp how] at hout
          exact absurd hout (by simp)
    have hgeA : (buildProgram cfgA fsaA).length ≤ s.pcA :=
      List.get?_eq_none.mp hAnone
    have hgeB : (buildProgram cfgB fsaB).length ≤ s.pcB :=
      List.get?_eq_none.mp hBnone
    refine ⟨le_antisymm hlA hgeA, le_antisymm hlB hgeB, ?_⟩
    · have hAf := instrAt_none_not_critical cfgA fsaA s.pcA hAnone
      have hBf := instrAt_none_not_critical cfgB fsaB s.pcB hBnone
      rcases how : s.owner with _ | x
      · rfl
      · cases x
        · rw [how] at hA
          rw [hA.mp rfl] at hAf
          exact absurd hAf (by simp)
        · rw [how] at hB
          rw [hB.mp rfl] at hBf
          exact absurd hBf (by simp)

/-- C3 witness: the reachable state in which job A has just taken the lock and
is about to start its compiler while job B has not begun. -/
theorem c3_build_serialization_witness :
    ¬(runningCompiler true true 1 = true ∧ runningCompiler true true 0 = true) ∧
    (instrAt true true 1 = some BuildInstr.runStart →
      runningCompiler true true 0 = false ∧ (true = true → (0 : Nat) = 0 ∨ 2 < 0)) ∧
    (instrAt true true 0 = some BuildInstr.runStart →
      runningCompiler true true 1 = false ∧ (true = true → (1 : Nat) = 0 ∨ 2 < 1)) ∧
    ((sysStep true true true true ⟨1, 0, some false⟩ false = none ∧
        sysStep true true true true ⟨1, 0, some false⟩ true = none) →
      (1 : Nat) = (buildProgram true true).length ∧
      (0 : Nat) = (buildProgram true true).length ∧
      (some false : Option Bool) = none) :=
  c3_build_serialization true true true true ⟨1, 0, some false⟩
    (SysReach.step SysReach.init (t := false) (by decide))

/-! ## Lemmas about dedupByKey and the component database -/

/-- Every element surviving deduplication has a key outside the seen set. -/
theorem dedupByKey_key_not_seen {α κ : Type _} [DecidableEq κ] (key : α → κ) :
    ∀ (l : List α) (seen : List κ) (a : α),
      a ∈ dedupByKey key l seen → key a ∉ seen := by
  intro l
  induction l with
  | nil => intro seen a ha; simp [dedupByKey] at ha
  | cons c rest ih =>
      intro seen a ha
      simp only [dedupByKey] at ha
      by_cases hc : key c ∈ seen
      · rw [if_pos hc] at ha
        exact ih seen a ha
      · rw [if_neg hc] at ha
        rcases List.mem_cons.mp ha with h1 | h2
        · subst h1; exact hc
        · intro hs
          exact ih _ a h2 (List.mem_cons_of_mem _ hs)

/-- Deduplication by key yields pairwise distinct keys. -/
theorem dedupByKey_pairwise {α κ : Type _} [DecidableEq κ] (key : α → κ) :
    ∀ (l : List α) (seen : List κ),
      (dedupByKey key l seen).Pairwise (fun a b => key a ≠ key b) := by
  intro l
  induction l with
  | nil => intro seen; simp [dedupByKey]
  | cons c rest ih =>
      intro seen
      simp only [dedupByKey]
      by_cases hc : key c ∈ seen
      · rw [if_pos hc]; exact ih seen
      · rw [if_neg hc]
        refine List.Pairwise.cons ?_ (ih _)
        intro b hb heq
        exact dedupByKey_key_not_seen key rest (key c :: seen) b hb
          (by rw [← heq]; exact List.mem_cons_self _ _)

/-- A final element whose key is fresh among the seen keys and among the keys
of all earlier elements survives deduplication. -/
theorem dedupByKey_mem_last {α κ : Type _} [DecidableEq κ] (key : α → κ) :
    ∀ (l : List α) (a : α) (seen : List κ), key a ∉ seen →
      (∀ b ∈ l, key b ≠ key a) → a ∈ dedupByKey key (l ++ [a]) seen := by
  intro l
  induction l with
  | nil =>
      intro a seen hs _
      simp only [List.nil_append, dedupByKey, if_neg hs]
      exact List.mem_cons_self _ _
  | cons c rest ih =>
      intro a seen hs hb
      simp only [List.cons_append, dedupByKey]
      by_cases hc : key c ∈ seen
      · rw [if_pos hc]
        exact ih a seen hs (fun b h => hb b (List.mem_cons_of_mem _ h))
      · rw [if_neg hc]
        refine List.mem_cons_of_mem _ (ih a _ ?_ (fun b h => hb b (List.mem_cons_of_mem _ h)))
        intro h
        rcases List.mem_cons.mp h with h1 | h2
        · exact hb c (List.mem_cons_self _ _) h1.symm
        · exact hs h2

/-- A component found by name has a nonempty file-name list, because find
matches on membership of the name in that list. -/
theorem find_file_names_ne_nil (db : ComponentDatabase) (name : String)
    (c : Component) (h : db.find name = some c) : c.file_names ≠ [] := by
  have hp := List.find?_some h
  intro hn
  rw [hn] at hp
  simp at hp

/-- The kernel component has an empty file-name list. -/
theorem kernel_file_names_nil (db : ComponentDatabase) (ker : Component)
    (h : db.kernel = some ker) : ker.file_names = [] := by
  have hp := List.find?_some h
  simpa using hp

/-! ## Lemmas and theorem for C6 -/

/-- No notification is published for a URI that belongs to no document of the
snapshot. -/
theorem publish_diagnostics_filter_not_mem {δ : Type _} (dm : String → List δ)
    (u : String) :
    ∀ ws : List DocW, u ∉ ws.map DocW.uri →
      (publish_diagnostics dm ws).filter (fun n => n.uri == u) = [] := by
  intro ws
  induction ws with
  | nil => intro _; rfl
  | cons c rest ih =>
      intro hu
      rw [List.map_cons, List.mem_cons, not_or] at hu
      obtain ⟨hc, hrest⟩ := hu
      have hne : (c.uri == u) = false := by
        rw [beq_eq_false_iff_ne]
        intro he
        exact hc he.symm
      by_cases hl : c.isBuildLog
      · simp only [publish_diagnostics, List.filterMap_cons, if_pos hl]
        exact ih hrest
      · simp only [publish_diagnostics, List.filterMap_cons, if_neg hl]
        rw [List.filter_cons]
        simp only [hne, Bool.false_eq_true, if_neg]
        exact ih hrest

/-- C6: for every workspace snapshot fired by the debouncer after its delay
elapsed without a newer item, and every document of the snapshot, exactly one
complete PublishDiagnostics notification is published for that document when it
is not a build log (carrying the full, possibly empty, diagnostics list of the
manager), and none when it is a build log. -/
theorem c6_debouncer_publishes_per_document {δ : Type _} (dm : String → List δ)
    (delay : Nat) (items : List (Nat × List DocW)) (w : List DocW)
    (hw : w ∈ debouncerFires delay items)
    (hnodup : (w.map DocW.uri).Nodup) (d : DocW) (hd : d ∈ w) :
    (publish_diagnostics dm w).filter (fun n => n.uri == d.uri)
      = if d.isBuildLog then [] else [⟨d.uri, none, dm d.uri⟩] := by
  clear hw
  induction w with
  | nil => cases hd
  | cons c rest ih =>
      rw [List.map_cons, List.nodup_cons] at hnodup
      obtain ⟨hcu, hnr⟩ := hnodup
      rcases List.mem_cons.mp hd with h1 | h2
      · subst h1
        by_cases hl : d.isBuildLog
        · rw [if_pos hl]
          simp only [publish_diagnostics, List.filterMap_cons, if_pos hl]
          exact publish_diagnostics_filter_not_mem dm d.uri rest hcu
        · rw [if_neg hl]
          simp only [publish_diagnostics, List.filterMap_cons, if_neg hl]
          rw [List.filter_cons]
          simp only [beq_self_eq_true, if_pos]
          have hrest := publish_diagnostics_filter_not_mem dm d.uri rest hcu
          simp only [publish_diagnostics] at hrest
          rw [hrest]
      · have hne : (c.uri == d.uri) = false := by
          rw [beq_eq_false_iff_ne]
          intro he
          exact hcu (he ▸ List.mem_map_of_mem DocW.uri h2)
        by_cases hl : c.isBuildLog
        · simp only [publish_diagnostics, List.filterMap_cons, if_pos hl]
          exact ih hnr h2
        · simp only [publish_diagnostics, List.filterMap_cons, if_neg hl]
          rw [List.filter_cons]
          simp only [hne, Bool.false_eq_true, if_neg]
          exact ih hnr h2

/-- C6 witness: a single item fired after the delay, one ordinary document
with no diagnostics (the published list is empty, clearing the client) and
nothing for the build log beside it. -/
theorem c6_debouncer_publishes_per_document_witness :
    (publish_diagnostics (fun _ => ([] : List Nat))
        [⟨"file:///a.tex", false⟩, ⟨"file:///a.log", true⟩]).filter
        (fun n => n.uri == "file:///a.tex")
      = [⟨"file:///a.tex", none, []⟩] := by
  have h := c6_debouncer_publishes_per_document (fun _ => ([] : List Nat)) 300
    [(0, [⟨"file:///a.tex", false⟩, ⟨"file:///a.log", true⟩])]
    [⟨"file:///a.tex", false⟩, ⟨"file:///a.log", true⟩]
    (by decide) (by decide) ⟨"file:///a.tex", false⟩ (by decide)
  simpa using h

/-! ## Theorems for C5 and C9 -/

/-- C5: client-owned documents are never mutated or removed by filesystem
watcher events (Create/Modify reloads only unknown or Server-owned paths and
Remove deletes only Server-owned documents), and didClose flips the owner of a
present document from Client to Server without removing it from the workspace
and without touching any other document. -/
theorem c5_owner_state_machine (fromPath : String → Option Language)
    (disk : String → String) (ws : WorkspaceM) (p : String) (d : DocM)
    (hp : ws p = some d) (hc : d.owner = Owner.client) :
    (∀ ev : FileEvent, handle_file_event fromPath disk ws ev p = some d) ∧
    did_close ws p p = some ⟨Owner.server, d.text, d.cursor⟩ ∧
    (∀ q, q ≠ p → did_close ws p q = ws q) := by
  refine ⟨?_, ?_, ?_⟩
  · intro ev
    rcases ev with ⟨kind, paths⟩
    cases kind
    case create =>
      exact foldl_preserve (handleCreateOrModifyPath fromPath disk)
        (fun w => w p = some d)
        (fun w a hw => handleCreateOrModifyPath_client fromPath disk w a p d hw hc)
        paths ws hp
    case modify =>
      exact foldl_preserve (handleCreateOrModifyPath fromPath disk)
        (fun w => w p = some d)
        (fun w a hw => handleCreateOrModifyPath_client fromPath disk w a p d hw hc)
        paths ws hp
    case remove =>
      exact foldl_preserve handleRemovePath (fun w => w p = some d)
        (fun w a hw => handleRemovePath_client w a p d hw hc) paths ws hp
    case anyKind => exact hp
    case access => exact hp
    case otherKind => exact hp
  · simp [did_close, hp, wsStore]
  · intro q hq
    simp [did_close, hp, wsStore, hq]

/-- C5 witness: a Remove event for a Client-owned document leaves it in place,
and didClose turns it Server-owned while keeping its text. -/
theorem c5_owner_state_machine_witness :
    (handle_file_event (fun _ => some Language.tex) (fun _ => "")
        (fun q => if q = "/w/a.tex" then some ⟨Owner.client, "x", 3⟩ else none)
        ⟨FileEventKind.remove, ["/w/a.tex"]⟩ "/w/a.tex"
      = some ⟨Owner.client, "x", 3⟩) ∧
    (did_close (fun q => if q = "/w/a.tex" then some ⟨Owner.client, "x", 3⟩ else none)
        "/w/a.tex" "/w/a.tex" = some ⟨Owner.server, "x", 3⟩) := by
  have h := c5_owner_state_machine (fun _ => some Language.tex) (fun _ => "")
    (fun q => if q = "/w/a.tex" then some ⟨Owner.client, "x", 3⟩ else none)
    "/w/a.tex" ⟨Owner.client, "x", 3⟩ (by simp) rfl
  exact ⟨h.1 ⟨FileEventKind.remove, ["/w/a.tex"]⟩, h.2.1⟩

/-- C9: a didChange notification whose URI is not a document in the workspace
is silently ignored: the handler returns success and the workspace is exactly
what it was, so no document is created and no text is edited. -/
theorem c9_did_change_unknown_uri
    (editRanged : DocM → Nat × Nat × Nat × Nat → String → DocM)
    (discover : WorkspaceM → WorkspaceM) (ws : WorkspaceM) (uri : String)
    (changes : List ContentChange) (h : ws uri = none) :
    did_change editRanged discover ws uri changes = (ws, true) := by
  simp [did_change, h]

/-- C9 witness: a didChange for an unloaded URI on the empty workspace. -/
theorem c9_did_change_unknown_uri_witness :
    did_change (fun d _ _ => d) (fun w => w) (fun _ => none) "file:///x.tex"
      [ContentChange.full "hello"] = (fun _ => none, true) :=
  c9_did_change_unknown_uri (fun d _ _ => d) (fun w => w) (fun _ => none)
    "file:///x.tex" [ContentChange.full "hello"] rfl

/-! ## Theorem for C10 -/

/-- C10: whenever linked_components returns (the embedded database does have a
kernel component, so the unwrap in kernel() succeeds), the result contains the
kernel component, and no two components of the result have equal file-name
lists. -/
theorem c10_linked_components_kernel_unique (db : ComponentDatabase)
    (links : List (TexLinkKind × String)) (result : List Component)
    (h : db.linked_components links = some result) :
    (∃ ker, db.kernel = some ker ∧ ker ∈ result) ∧
    result.Pairwise (fun a b => a.file_names ≠ b.file_names) := by
  unfold ComponentDatabase.linked_components at h
  rcases hk : db.kernel with _ | ker
  · rw [hk] at h
    exact absurd h (by simp)
  · rw [hk] at h
    simp only [Option.some.injEq] at h
    have hkn : ker.file_names = [] := kernel_file_names_nil db ker hk
    have hsplit :
        ((((links.filterMap linkComponentName).filterMap db.find) ++ [ker]).flatMap
            (fun comp => comp.references.filterMap db.find ++ [comp]))
          = (((links.filterMap linkComponentName).filterMap db.find).flatMap
              (fun comp => comp.references.filterMap db.find ++ [comp])
              ++ ker.references.filterMap db.find) ++ [ker] := by
      rw [List.flatMap_append]
      simp [List.append_assoc]
    have hne : ∀ b ∈ (((links.filterMap linkComponentName).filterMap db.find).flatMap
        (fun comp => comp.references.filterMap db.find ++ [comp])
        ++ ker.references.filterMap db.find), b.file_names ≠ [] := by
      intro b hb
      rcases List.mem_append.mp hb with hb | hb
      · rcases List.mem_flatMap.mp hb with ⟨comp, hcomp, hbc⟩
        have hcompne : comp.file_names ≠ [] := by
          rcases List.mem_filterMap.mp hcomp with ⟨nm, _, hfind⟩
          exact find_file_names_ne_nil db nm comp hfind
        rcases List.mem_append.mp hbc with hbc | hbc
        · rcases List.mem_filterMap.mp hbc with ⟨nm, _, hfind⟩
          exact find_file_names_ne_nil db nm b hfind
        · have hbe := List.mem_singleton.mp hbc
          subst hbe
          exact hcompne
      · rcases List.mem_filterMap.mp hb with ⟨nm, _, hfind⟩
        exact find_file_names_ne_nil db nm b hfind
    subst h
    constructor
    · refine ⟨ker, rfl, ?_⟩
      rw [hsplit]
      refine dedupByKey_mem_last Component.file_names _ ker [] (by simp) ?_
      intro b hb heq
      exact hne b hb (heq.trans hkn)
    · exact dedupByKey_pairwise Component.file_names _ []

/-- C10 witness: a two-component database with a class component and the
kernel, and a single class link. -/
theorem c10_linked_components_kernel_unique_witness :
    (∃ ker, (ComponentDatabase.mk [⟨["article.cls"], []⟩, ⟨[], []⟩]).kernel = some ker ∧
        ker ∈ [(⟨["article.cls"], []⟩ : Component), ⟨[], []⟩]) ∧
    ([(⟨["article.cls"], []⟩ : Component), ⟨[], []⟩]).Pairwise
        (fun a b => a.file_names ≠ b.file_names) :=
  c10_linked_components_kernel_unique
    (ComponentDatabase.mk [⟨["article.cls"], []⟩, ⟨[], []⟩])
    [(TexLinkKind.cls, "article")]
    [⟨["article.cls"], []⟩, ⟨[], []⟩] (by decide)

/-! ## Theorems for C1, C7, C8 -/

/-- C1: counterexample.  With a configured compiler, forward-search-after-build
enabled and a compiler run returning status Error (not Success), an internal
ForwardSearch message is still enqueued, refuting the claim that no
ForwardSearch message is enqueued when the build status is not Success. -/
theorem c1_counterexample :
    (build_internal (some ⟨BuildStatus.error⟩) true).forwardSearchEnqueued = true ∧
    (build_internal (some ⟨BuildStatus.error⟩) true).status ≠ BuildStatus.success := by
  decide

/-- C1 (amended): a ForwardSearch message is enqueued after a build exactly when
the compiler was successfully configured and the configuration enables
forward-search-after-build, regardless of the status returned by the run. -/
theorem c1_amended (compiler : Option TexCompilerM) (forwardSearchAfter : Bool) :
    (build_internal compiler forwardSearchAfter).forwardSearchEnqueued
      = (compiler.isSome && forwardSearchAfter) := by
  cases compiler <;> simp [build_internal]

/-- C7: on a known document, when the forward-search executable or its argument
list is not configured, forward search returns status Unconfigured and does not
invoke any external viewer command. -/
theorem c7_unconfigured_no_invoke
    (executable : Option String) (args : Option (List String))
    (executeResult : Option ForwardSearchStatus)
    (h : executable = none ∨ args = none) :
    forward_search_internal true executable args executeResult
      = ⟨ForwardSearchStatus.unconfigured, false⟩ := by
  have hz : optionZip executable args = none := by
    rcases h with h | h <;> subst h
    · cases args <;> rfl
    · cases executable <;> rfl
  simp [forward_search_internal, hz]

/-- C7 witness: concrete instance with no executable configured. -/
theorem c7_unconfigured_no_invoke_witness :
    forward_search_internal true none (some ["%p"]) none
      = ⟨ForwardSearchStatus.unconfigured, false⟩ :=
  c7_unconfigured_no_invoke none (some ["%p"]) none (Or.inl rfl)

/-- C2: counterexample.  A documentLink request for an unknown document is
answered through run_async_query with a success response holding the empty
default result (link::find_all returns None and unwrap_or_default applies),
not with the RPC error InvalidRequest and message "unknown document". -/
theorem c2_counterexample :
    document_link (α := Nat) none = Response.ok [] ∧
    Response.ok ([] : List Nat) ≠ Response.err invalidRequestCode "unknown document" := by
  constructor
  · rfl
  · decide

/-- C2 (amended): for a URI that does not name a loaded document, the feature
requests dispatched through handle_feature_request (documentSymbol, references,
definition, prepareRename, rename, documentHighlight) respond with RPC error
InvalidRequest and message "unknown document", while the feature requests
dispatched through run_async_query (completion, hover, formatting, link,
folding, inlayHint) respond with a success carrying a default or empty result
and never with an error; no handler crashes. -/
theorem c2_amended {α β : Type} (docs : List String) (uri : String)
    (h : uri ∉ docs) (result : α) (query : Option β)
    (listQuery : Option (List β)) :
    document_symbols docs uri result
        = Response.err invalidRequestCode "unknown document" ∧
    references docs uri result
        = Response.err invalidRequestCode "unknown document" ∧
    goto_definition docs uri result
        = Response.err invalidRequestCode "unknown document" ∧
    prepare_rename docs uri result
        = Response.err invalidRequestCode "unknown document" ∧
    rename docs uri result
        = Response.err invalidRequestCode "unknown document" ∧
    document_highlight docs uri result
        = Response.err invalidRequestCode "unknown document" ∧
    (∀ c m, completion query ≠ Response.err c m) ∧
    (∀ c m, hover query ≠ Response.err c m) ∧
    (∀ c m, formatting query ≠ Response.err c m) ∧
    (∀ c m, document_link listQuery ≠ Response.err c m) ∧
    (∀ c m, folding_range listQuery ≠ Response.err c m) ∧
    (∀ c m, inlay_hints listQuery ≠ Response.err c m) := by
  have hs : (wsSlice docs uri).isEmpty = true := by simp [wsSlice, h]
  refine ⟨?_, ?_, ?_, ?_, ?_, ?_, ?_, ?_, ?_, ?_, ?_, ?_⟩ <;>
    simp [document_symbols, references, goto_definition, prepare_rename, rename,
      document_highlight, handle_feature_request, hs, completion, hover,
      formatting, document_link, folding_range, inlay_hints]

/-- C2 witness: a rename request and a completion request on the empty
workspace, at a URI that is loaded nowhere. -/
theorem c2_amended_witness :
    rename ([] : List String) "file:///x.tex" (0 : Nat)
        = Response.err invalidRequestCode "unknown document" ∧
    (∀ c m, completion (none : Option Nat) ≠ Response.err c m) := by
  have h := c2_amended ([] : List String) "file:///x.tex"
    (by simp) (0 : Nat) (none : Option Nat) (none : Option (List Nat))
  exact ⟨h.2.2.2.2.1, h.2.2.2.2.2.2.1⟩

/-- C8: counterexample.  The advertised completion trigger characters are not
the claimed set ending in a backtick: the sixth trigger character is a space. -/
theorem c8_counterexample :
    completionTriggerCharacters ≠ ["\x5c", "\x7b", "\x7d", "@", "/", "\x60"] ∧
    completionTriggerCharacters.get? 5 = some " " := by
  constructor
  · intro h
    have := congrArg (fun l => List.get? l 5) h
    simp [completionTriggerCharacters] at this
  · rfl

/-- C8 (amended): the capabilities advertised on initialize include completion
with exactly the trigger characters backslash, open brace, close brace, at
sign, slash and space, and an execute-command provider with exactly the
commands texlab.cleanAuxiliary and texlab.cleanArtifacts. -/
theorem c8_amended :
    completionTriggerCharacters = ["\x5c", "\x7b", "\x7d", "@", "/", " "] ∧
    executeCommandCommands = ["texlab.cleanAuxiliary", "texlab.cleanArtifacts"] :=
  ⟨rfl, rfl⟩

end TexlabSpec
